import Mathlib

/-!
Verification of the Data-Model-Diagram editor state logic.

Shallow embedding of the state containers and string handling of the
React application (`FlowApp` and `TableNode`): column-tag parsing in
`addTable`, the node/edge updaters, relationship-marker selection in
`onConnect`, legend renaming, the export branches of `exportDiagram`,
and the persisted-state initializers.

JavaScript strings are modelled as `List Char`, JavaScript numbers as
`ℚ`, and JSON values as the inductive `Json` below.  External library
calls (`reactflow`'s `addEdge`/`applyNodeChanges`, `html-to-image`'s
renderers, `JSON.parse`) are taken as parameters constrained only by
their documented contracts.
-/

namespace DataModel

/-! ## Case folding for the `/.../i` column-tag regexes

The only regexes in the source are `/\((pk|fk|ck)\)/gi`, `/\(pk\)/i`,
`/\(fk\)/i` and `/\(ck\)/i`.  ECMAScript ignore-case matching
canonicalises letter case; restricted to the characters that occur in
these patterns (`(`, `)`, `k` and the tag letters) it identifies each
upper-case tag letter with its lower-case form and fixes every other
character, which is exactly what `foldChar` does. -/

def foldChar (c : Char) : Char :=
  if c = 'P' then 'p'
  else if c = 'F' then 'f'
  else if c = 'C' then 'c'
  else if c = 'K' then 'k'
  else c

/-- The tag pattern `(tk)` (for tag letter `t`, e.g. `t = 'p'` for
`(pk)`) matches, ignoring case, at the start of the character list.
This is the regex `/\(tk\)/i` anchored at the current position. -/
def tagHere (t : Char) : List Char → Bool
  | a :: b :: k :: d :: _ =>
    a == '(' && foldChar b == t && foldChar k == 'k' && d == ')'
  | _ => false

/-- `/\(tk\)/i.test(item)`: the tag pattern occurs somewhere in the list. -/
def hasTag (t : Char) : List Char → Bool
  | [] => false
  | c :: rest => tagHere t (c :: rest) || hasTag t rest

/-- The alternation `\((pk|fk|ck)\)` matches at the current position. -/
def tagHereAny (cs : List Char) : Bool :=
  tagHere 'p' cs || tagHere 'f' cs || tagHere 'c' cs

/-- `item.replace(/\((pk|fk|ck)\)/gi, '')`: a global regex replace scans
left to right; at each position it either consumes a four-character tag
match and emits nothing, or emits the character and moves on. -/
def removeTags : List Char → List Char
  | a :: b :: k :: d :: rest =>
    if tagHereAny (a :: b :: k :: d :: rest) then removeTags rest
    else a :: removeTags (b :: k :: d :: rest)
  | cs => cs

/-- `String.prototype.trim`: drop whitespace from both ends. -/
def trimChars (cs : List Char) : List Char :=
  ((cs.dropWhile Char.isWhitespace).reverse.dropWhile Char.isWhitespace).reverse

/-- `text.split(',')`: split at every comma; `''.split(',')` is `['']`. -/
def splitComma : List Char → List (List Char)
  | [] => [[]]
  | c :: rest =>
    if c = ',' then [] :: splitComma rest
    else
      match splitComma rest with
      | [] => [[c]]
      | p :: ps => (c :: p) :: ps

/-- A column of a table node: `{ name, isPK, isFK, isCK }`. -/
structure Column where
  name : List Char
  isPK : Bool
  isFK : Bool
  isCK : Bool
deriving DecidableEq, Repr

/-- The arrow function applied to each trimmed, non-empty piece in
`addTable`:
`{ name: item.replace(/\((pk|fk|ck)\)/gi, '').trim(),
   isPK: /\(pk\)/i.test(item), isFK: ..., isCK: ... }`. -/
def parseColumnItem (item : List Char) : Column :=
  { name := trimChars (removeTags item)
    isPK := hasTag 'p' item
    isFK := hasTag 'f' item
    isCK := hasTag 'c' item }

/-- The column parser of `addTable`:
`schemaText.split(',').map(i => i.trim()).filter(i => i !== "").map(...)`. -/
def parseColumns (schemaText : List Char) : List Column :=
  ((((splitComma schemaText).map trimChars).filter (fun i => !i.isEmpty)).map
    parseColumnItem)

/-! ## Declarative (spec-side) reading of the column-tag operations

The claims describe the regex operations in words: "contains the
substring `(pk)` matched case-insensitively", "the piece with every
`(pk)`, `(fk)`, `(ck)` occurrence removed".  The following definitions
formalise those words independently of the scanning functions above,
so that the correspondence is a theorem and not a restatement. -/

/-- Case-fold a whole string (see `foldChar`). -/
def foldCI (cs : List Char) : List Char := cs.map foldChar

/-- `cs` contains `pat` as a substring, matched case-insensitively:
after case folding, `pat` literally occurs inside `cs`. -/
def ContainsCI (pat cs : List Char) : Prop :=
  ∃ l r, foldCI cs = l ++ pat ++ r

/-- `pat` matches case-insensitively at the start of `cs`. -/
def matchesAt : (pat cs : List Char) → Bool
  | [], _ => true
  | _ :: _, [] => false
  | p :: ps, c :: cs => foldChar c == p && matchesAt ps cs

/-- The three column-tag patterns, in the order of the regex
alternation `(pk|fk|ck)`. -/
def tagPatterns : List (List Char) :=
  [['(', 'p', 'k', ')'], ['(', 'f', 'k', ')'], ['(', 'c', 'k', ')']]

/-- Remove every case-insensitive occurrence of any of `pats`,
scanning left to right.  (For the three tag patterns, occurrences can
never overlap — a tag ends in `)` and starts with `(` — so this is
removal of every occurrence of the original piece.) -/
def stripOccurrences (pats : List (List Char)) : List Char → List Char
  | [] => []
  | c :: rest =>
    match pats.find? (fun p => matchesAt p (c :: rest)) with
    | some p => stripOccurrences pats (rest.drop (p.length - 1))
    | none => c :: stripOccurrences pats rest
termination_by cs => cs.length
decreasing_by
  · simp only [List.length_cons, List.length_drop]; omega
  · simp

/-! ## The application data model

`FlowApp`'s state: nodes, edges, the form fields, and the legend.
JavaScript numbers are modelled as `ℚ`; the `onDelete`/`onEdit`
callbacks stored in `node.data` carry no data (and are dropped by
`JSON.stringify`), so they are omitted. -/

/-- One legend entry: `{ id, name, hex }`. -/
structure LegendItem where
  id : String
  name : String
  hex : String
deriving DecidableEq, Repr

/-- A table node's `data`: `{ label, columns, color }`. -/
structure NodeData where
  label : String
  columns : List Column
  color : String
deriving DecidableEq, Repr

/-- A React Flow node as this app builds and stores it. -/
structure Node where
  id : String
  type : String
  position : ℚ × ℚ
  data : NodeData
deriving DecidableEq, Repr

/-- An edge end marker: either the object
`{ type: MarkerType.ArrowClosed, color, width, height }` or the string
id of an svg marker (`'many-side'`). -/
inductive EdgeMarker where
  | arrowClosed (color : String) (width height : ℚ)
  | named (id : String)
deriving DecidableEq, Repr

/-- `{ strokeWidth: 1.5, stroke: '#3b82f6' }`. -/
structure EdgeStyle where
  strokeWidth : ℚ
  stroke : String
deriving DecidableEq, Repr

/-- A React Flow edge as built by `onConnect`. -/
structure Edge where
  id : String
  source : String
  target : String
  sourceHandle : Option String
  targetHandle : Option String
  type : String
  style : EdgeStyle
  markerStart : Option EdgeMarker
  markerEnd : Option EdgeMarker
deriving DecidableEq, Repr

/-- The connection parameters React Flow hands to `onConnect`. -/
structure Connection where
  source : String
  target : String
  sourceHandle : Option String
  targetHandle : Option String
deriving DecidableEq, Repr

/-- The `useState` cells of `FlowApp` that the claims touch. -/
structure AppState where
  nodes : List Node
  edges : List Edge
  tableName : String
  schemaText : List Char
  selectedColor : String
  editingNodeId : Option String
  legend : List LegendItem
deriving DecidableEq, Repr

/-- `handleRenameLegend`: rename the legend entries whose id matches.
(The `localStorage.setItem` side effect is not part of the state.) -/
def handleRenameLegend (id newName : String) (legend : List LegendItem) :
    List LegendItem :=
  legend.map fun item =>
    if item.id = id then { item with name := newName } else item

/-- `onDeleteNode`: drop the node and every edge touching it. -/
def onDeleteNode (id : String) (st : AppState) : AppState :=
  { st with
    nodes := st.nodes.filter (fun n => n.id != id)
    edges := st.edges.filter (fun e => e.source != id && e.target != id) }

/-- The tag `onStartEdit` appends to a column name:
`if (c.isPK) tag = ' (pk)'; else if (c.isFK) ...; else if (c.isCK) ...`. -/
def columnTag (c : Column) : List Char :=
  if c.isPK then [' ', '(', 'p', 'k', ')']
  else if c.isFK then [' ', '(', 'f', 'k', ')']
  else if c.isCK then [' ', '(', 'c', 'k', ')']
  else []

/-- `` `${c.name}${tag}` `` for one column. -/
def serializeColumn (c : Column) : List Char := c.name ++ columnTag c

/-- `Array.prototype.join(', ')`. -/
def joinComma : List (List Char) → List Char
  | [] => []
  | [x] => x
  | x :: y :: rest => x ++ ',' :: ' ' :: joinComma (y :: rest)

/-- The schema text `onStartEdit` writes back into the form:
`data.columns?.map(c => `${c.name}${tag}`).join(', ')` (and `''` for an
empty column list). -/
def onStartEditText (columns : List Column) : List Char :=
  joinComma (columns.map serializeColumn)

/-- The node `addTable` appends when no node is being edited. -/
def newTableNode (now : Int) (data : NodeData) : Node :=
  { id := "node_" ++ toString now
    type := "tableNode"
    position := (350, 150)
    data := data }

/-- `addTable` (`now` stands for `Date.now()`): bail out on an empty
name; otherwise parse the schema text, then either update the edited
node's data in place or append a fresh node, and clear the form. -/
def addTable (now : Int) (st : AppState) : AppState :=
  if st.tableName = "" then st
  else
    let newNodeData : NodeData :=
      { label := st.tableName
        columns := parseColumns st.schemaText
        color := st.selectedColor }
    let st' :=
      match st.editingNodeId with
      | some eid =>
        { st with
          nodes := st.nodes.map (fun (n : Node) =>
            if n.id = eid then { n with data := newNodeData } else n)
          editingNodeId := none }
      | none =>
        { st with nodes := st.nodes ++ [newTableNode now newNodeData] }
    { st' with tableName := "", schemaText := [] }

/-- The `(markerStart, markerEnd)` pair `onConnect` chooses from the
selected relationship type. -/
def connectMarkers (relType : String) : Option EdgeMarker × Option EdgeMarker :=
  if relType = "1:1" then
    (none, some (.arrowClosed "#3b82f6" 15 15))
  else if relType = "1:N" then
    (none, some (.named "many-side"))
  else if relType = "N:M" then
    (some (.named "many-side"), some (.named "many-side"))
  else (none, none)

/-- The edge object `onConnect` builds before handing it to
`reactflow`'s `addEdge`. -/
def onConnectEdge (relType : String) (params : Connection) (now : Int) : Edge :=
  { id := "e-" ++ toString now
    source := params.source
    target := params.target
    sourceHandle := params.sourceHandle
    targetHandle := params.targetHandle
    type := "smoothstep"
    style := { strokeWidth := (3 : ℚ) / 2, stroke := "#3b82f6" }
    markerStart := (connectMarkers relType).1
    markerEnd := (connectMarkers relType).2 }

/-! ## JSON values, persisted-state initialisation, and export

`Json` models the JavaScript values `JSON.parse` can produce and
`JSON.stringify` consumes.  `JSON.parse` itself is a platform builtin,
so the initialisers take the parse outcome as a parameter. -/

/-- A JSON value (numbers as `ℚ`). -/
inductive Json where
  | null : Json
  | bool (b : Bool) : Json
  | num (q : ℚ) : Json
  | str (s : String) : Json
  | arr (items : List Json) : Json
  | obj (fields : List (String × Json)) : Json

/-- The `useState` initialisers for `nodes` and `edges`:
`saved = localStorage.getItem(k)` (`none` when absent), then
`parsed = saved ? JSON.parse(saved) : []` inside `try`, with
`catch { return [] }`, and finally
`Array.isArray(parsed) ? parsed : []`.  The empty string is falsy, so
it takes the `[]` branch like an absent entry. -/
def initStored (saved : Option String)
    (parse : String → Except Unit Json) : Json :=
  match saved with
  | none => Json.arr []
  | some s =>
    if s = "" then Json.arr []
    else
      match parse s with
      | .error _ => Json.arr []
      | .ok v =>
        match v with
        | Json.arr l => Json.arr l
        | _ => Json.arr []

/-- `JSON.stringify` of a column. -/
def encodeColumn (c : Column) : Json :=
  Json.obj
    [("name", Json.str ⟨c.name⟩),
     ("isPK", Json.bool c.isPK),
     ("isFK", Json.bool c.isFK),
     ("isCK", Json.bool c.isCK)]

/-- `JSON.stringify` of a node (`JSON.stringify` drops the `onDelete`
and `onEdit` function fields of `data`). -/
def encodeNode (n : Node) : Json :=
  Json.obj
    [("id", Json.str n.id),
     ("type", Json.str n.type),
     ("position", Json.obj [("x", Json.num n.position.1),
                            ("y", Json.num n.position.2)]),
     ("data", Json.obj [("label", Json.str n.data.label),
                        ("columns", Json.arr (n.data.columns.map encodeColumn)),
                        ("color", Json.str n.data.color)])]

/-- `JSON.stringify` of an edge end marker (`MarkerType.ArrowClosed`
is the string `'arrowclosed'`). -/
def encodeMarker : EdgeMarker → Json
  | .arrowClosed color width height =>
    Json.obj [("type", Json.str "arrowclosed"), ("color", Json.str color),
              ("width", Json.num width), ("height", Json.num height)]
  | .named id => Json.str id

/-- `JSON.stringify` of an optional field. -/
def encodeOpt (f : α → Json) : Option α → Json
  | none => Json.null
  | some a => f a

/-- `JSON.stringify` of an edge. -/
def encodeEdge (e : Edge) : Json :=
  Json.obj
    [("id", Json.str e.id),
     ("source", Json.str e.source),
     ("target", Json.str e.target),
     ("sourceHandle", encodeOpt Json.str e.sourceHandle),
     ("targetHandle", encodeOpt Json.str e.targetHandle),
     ("type", Json.str e.type),
     ("style", Json.obj [("strokeWidth", Json.num e.style.strokeWidth),
                         ("stroke", Json.str e.style.stroke)]),
     ("markerStart", encodeOpt encodeMarker e.markerStart),
     ("markerEnd", encodeOpt encodeMarker e.markerEnd)]

/-- `JSON.stringify` of a legend entry. -/
def encodeLegendItem (l : LegendItem) : Json :=
  Json.obj [("id", Json.str l.id), ("name", Json.str l.name),
            ("hex", Json.str l.hex)]

/-- The object serialised by the `'json'` branch of `exportDiagram`:
`JSON.stringify({ nodes, edges, legend }, null, 2)`. -/
def exportJsonPayload (st : AppState) : Json :=
  Json.obj
    [("nodes", Json.arr (st.nodes.map encodeNode)),
     ("edges", Json.arr (st.edges.map encodeEdge)),
     ("legend", Json.arr (st.legend.map encodeLegendItem))]

/-- The bounding box `getNodesBounds(nodes)` returns. -/
structure Bounds where
  x : ℚ
  y : ℚ
  width : ℚ
  height : ℚ
deriving DecidableEq, Repr

/-- The option record `exportDiagram` hands to `toSvg`/`toPng`:
the computed canvas size, the viewport translation applied in
`onClone` (nodes shifted right past the legend), and the pinned legend
panel position. -/
structure ExportOptions where
  backgroundColor : String
  width : ℚ
  height : ℚ
  viewportX : ℚ
  viewportY : ℚ
  legendLeft : ℚ
  legendTop : ℚ
deriving DecidableEq, Repr

/-- `legendBuffer` constant of `exportDiagram`. -/
def legendBuffer : ℚ := 300

/-- `margin` constant of `exportDiagram`. -/
def exportMargin : ℚ := 100

/-- The options computed from the node bounds in `exportDiagram`. -/
def mkExportOptions (bounds : Bounds) : ExportOptions :=
  { backgroundColor := "#f8fafc"
    width := bounds.width + legendBuffer + exportMargin * 2
    height := bounds.height + exportMargin * 2
    viewportX := -bounds.x + legendBuffer
    viewportY := -bounds.y + exportMargin
    legendLeft := 40
    legendTop := 40 }

/-- Which image renderer is invoked:
`format === 'svg' ? await toSvg(...) : await toPng(...)`. -/
inductive ImgKind where
  | svg
  | png
deriving DecidableEq, Repr

/-- The observable outcome of one `exportDiagram` call. -/
inductive ExportOutcome where
  | jsonDownload (fileName : String) (payload : Json)
  | imageDownload (fileName : String) (kind : ImgKind)
      (options : ExportOptions) (dataUrl : String)
  | alertFailure
  | nothing

/-- `exportDiagram(format)`.  `domPresent` models
`document.querySelector('.react-flow')` finding the canvas, `boundsOf`
models `getNodesBounds`, and `render` models the `html-to-image`
renderers (`.error` is a thrown rendering error, routed to the `catch`
that alerts).  The function contains no state update; its state
component is always the state it was called in. -/
def exportDiagram (format : String) (st : AppState) (now : Int)
    (domPresent : Bool) (boundsOf : List Node → Bounds)
    (render : ImgKind → ExportOptions → Except Unit String) :
    AppState × ExportOutcome :=
  if format = "json" then
    (st, .jsonDownload ("database_model_" ++ toString now ++ ".json")
      (exportJsonPayload st))
  else if !domPresent || st.nodes.isEmpty then
    (st, .nothing)
  else
    let options := mkExportOptions (boundsOf st.nodes)
    let kind := if format = "svg" then ImgKind.svg else ImgKind.png
    match render kind options with
    | .ok dataUrl =>
      (st, .imageDownload ("db_model_" ++ toString now ++ "." ++ format) kind
        options dataUrl)
    | .error _ => (st, .alertFailure)

/-! ## Dynamic view of the state containers

The `nodes`/`edges` invariant "the state is an array" is a fact about
untyped JavaScript values, so it is stated over `Json`.  The updater
bodies use the array methods `.filter`, `.map` and `.concat`, which
are only defined on arrays (`none` models the `TypeError` of calling
them on anything else); `reactflow`'s `addEdge`, `applyNodeChanges`
and `applyEdgeChanges` are documented to map arrays to arrays and
enter as arbitrary `List Json → List Json` functions. -/

/-- `.filter` on a dynamic value. -/
def jsFilter (p : Json → Bool) : Json → Option Json
  | Json.arr l => some (Json.arr (l.filter p))
  | _ => none

/-- `.map` on a dynamic value. -/
def jsMap (f : Json → Json) : Json → Option Json
  | Json.arr l => some (Json.arr (l.map f))
  | _ => none

/-- `.concat(v)` on a dynamic value. -/
def jsConcat (v : Json) : Json → Option Json
  | Json.arr l => some (Json.arr (l ++ [v]))
  | _ => none

/-- One state update of `FlowApp`, acting on the pair
`(nodes, edges)`: appending a table (`addTable`, fresh branch),
rewriting node data (`addTable` edit branch, and the effect that
rebinds the callbacks), deleting a node with its edges
(`onDeleteNode`), deleting the selected edge, connecting
(`setEdges(addEdge(edge, eds))`), and applying node/edge changes
(`applyNodeChanges`/`applyEdgeChanges`). -/
inductive StateUpdate : Json × Json → Json × Json → Prop where
  | addTableNew (ns es v ns' : Json) :
      jsConcat v ns = some ns' → StateUpdate (ns, es) (ns', es)
  | addTableEdit (ns es : Json) (f : Json → Json) (ns' : Json) :
      jsMap f ns = some ns' → StateUpdate (ns, es) (ns', es)
  | deleteNode (ns es : Json) (p q : Json → Bool) (ns' es' : Json) :
      jsFilter p ns = some ns' → jsFilter q es = some es' →
      StateUpdate (ns, es) (ns', es')
  | deleteEdge (ns es : Json) (p : Json → Bool) (es' : Json) :
      jsFilter p es = some es' → StateUpdate (ns, es) (ns, es')
  | connect (ns es : Json) (l : List Json) (addEdgeImpl : List Json → List Json) :
      es = Json.arr l → StateUpdate (ns, es) (ns, Json.arr (addEdgeImpl l))
  | nodesChange (ns es : Json) (l : List Json)
      (applyChanges : List Json → List Json) :
      ns = Json.arr l → StateUpdate (ns, es) (Json.arr (applyChanges l), es)
  | edgesChange (ns es : Json) (l : List Json)
      (applyChanges : List Json → List Json) :
      es = Json.arr l → StateUpdate (ns, es) (ns, Json.arr (applyChanges l))

/-- The states `(nodes, edges)` reachable from any startup (any stored
text, any parse outcome) by the state updates above. -/
inductive ReachableState : Json × Json → Prop where
  | init (savedN savedE : Option String)
      (parseN parseE : String → Except Unit Json) :
      ReachableState (initStored savedN parseN, initStored savedE parseE)
  | step (s t : Json × Json) :
      ReachableState s → StateUpdate s t → ReachableState t

/-- `cs` starts with a non-whitespace character (or is empty). -/
def headWS (cs : List Char) : Bool :=
  match cs.head? with
  | some a => a.isWhitespace
  | none => false

/-- `cs` ends with a non-whitespace character (or is empty). -/
def lastWS (cs : List Char) : Bool :=
  match cs.getLast? with
  | some a => a.isWhitespace
  | none => false

/-- The column lists for which the `onStartEdit` serialisation is
faithfully re-read by `addTable`'s parser: at most one key flag per
column, and a name that is non-empty, comma-free, free of
(case-insensitive) tag substrings, and not padded with whitespace. -/
def GoodColumn (c : Column) : Prop :=
  (c.isPK = true → c.isFK = false ∧ c.isCK = false) ∧
  (c.isFK = true → c.isCK = false) ∧
  c.name ≠ [] ∧
  ',' ∉ c.name ∧
  hasTag 'p' c.name = false ∧
  hasTag 'f' c.name = false ∧
  hasTag 'c' c.name = false ∧
  headWS c.name = false ∧
  lastWS c.name = false

instance GoodColumn.decidable (c : Column) : Decidable (GoodColumn c) := by
  unfold GoodColumn
  infer_instance

/-- The trimmed, non-empty pieces of the schema text, in order:
`schemaText.split(',').map(i => i.trim()).filter(i => i !== "")`. -/
def trimmedPieces (s : List Char) : List (List Char) :=
  ((splitComma s).map trimChars).filter (fun i => !i.isEmpty)

/-- The ten legend entries of the `INITIAL_LEGEND` constant. -/
def INITIAL_LEGEND : List LegendItem :=
  [⟨"1", "Reporting", "#fbbf24"⟩,
   ⟨"2", "Warehouse", "#94a3b8"⟩,
   ⟨"3", "Staging", "#cd7f32"⟩,
   ⟨"4", "Refined", "#10b981"⟩,
   ⟨"5", "Sensitive", "#f43f5e"⟩,
   ⟨"6", "External", "#a855f7"⟩,
   ⟨"7", "Master Data", "#3b82f6"⟩,
   ⟨"8", "Audit/Logs", "#64748b"⟩,
   ⟨"9", "Temporary", "#ec4899"⟩,
   ⟨"10", "Archive", "#0f172a"⟩]

/-! Concrete values used to instantiate the theorems with hypotheses. -/

/-- A sample stored node. -/
def sampleNode : Node :=
  { id := "node_1", type := "tableNode", position := (350, 150),
    data := { label := "users",
              columns := [⟨['i', 'd'], true, false, false⟩],
              color := "#fbbf24" } }

/-- A sample edge attached to `sampleNode`. -/
def sampleEdge : Edge :=
  { id := "e-1", source := "node_1", target := "node_2",
    sourceHandle := none, targetHandle := none, type := "smoothstep",
    style := { strokeWidth := (3 : ℚ) / 2, stroke := "#3b82f6" },
    markerStart := none, markerEnd := some (.named "many-side") }

/-- A sample state in which `node_1` is being edited. -/
def sampleEditState : AppState :=
  { nodes := [sampleNode], edges := [sampleEdge],
    tableName := "accounts", schemaText := ('i' :: 'd' :: []),
    selectedColor := "#10b981", editingNodeId := some "node_1",
    legend := INITIAL_LEGEND }

/-- A sample state with an empty diagram. -/
def emptyState : AppState :=
  { nodes := [], edges := [], tableName := "", schemaText := [],
    selectedColor := "#fbbf24", editingNodeId := none,
    legend := INITIAL_LEGEND }

/-- A renderer that always succeeds. -/
def okRender : ImgKind → ExportOptions → Except Unit String :=
  fun _ _ => .ok "data:image/svg+xml;charset=utf-8,ok"

/-- A renderer that always throws. -/
def errRender : ImgKind → ExportOptions → Except Unit String :=
  fun _ _ => .error ()

/-- A bounds oracle standing in for `getNodesBounds`. -/
def sampleBounds : List Node → Bounds := fun _ => ⟨20, 30, 400, 250⟩

/-- A parse outcome standing in for `JSON.parse` that always throws. -/
def failParse : String → Except Unit Json := fun _ => .error ()

/-- Column list used to instantiate the round-trip theorem. -/
def sampleColumns : List Column :=
  [⟨['i', 'd'], true, false, false⟩,
   ⟨['u', 's', 'e', 'r', '_', 'i', 'd'], false, true, false⟩,
   ⟨['c', 'o', 'd', 'e'], false, false, true⟩,
   ⟨['n', 'o', 't', 'e'], false, false, false⟩]

end DataModel

namespace DataModel

/-! ## Properties of the case folding -/

theorem foldChar_eq_lparen (c : Char) : foldChar c = '(' ↔ c = '(' := by
  unfold foldChar
  split_ifs with h1 h2 h3 h4 <;> subst_vars <;> simp_all

theorem foldChar_eq_rparen (c : Char) : foldChar c = ')' ↔ c = ')' := by
  unfold foldChar
  split_ifs with h1 h2 h3 h4 <;> subst_vars <;> simp_all

theorem foldChar_lparen_val : foldChar '(' = '(' := by decide

theorem foldChar_rparen_val : foldChar ')' = ')' := by decide

/-- Anchored case-insensitive matching of a tag pattern coincides with
the `tagHere` scanner test. -/
theorem matchesAt_tag (t : Char) (cs : List Char) :
    matchesAt ['(', t, 'k', ')'] cs = tagHere t cs := by
  match cs with
  | [] => simp [matchesAt, tagHere]
  | [a] => simp [matchesAt, tagHere]
  | [a, b] => simp [matchesAt, tagHere]
  | [a, b, k] => simp [matchesAt, tagHere]
  | a :: b :: k :: d :: rest =>
    rw [Bool.eq_iff_iff]
    simp [matchesAt, tagHere, foldChar_eq_lparen, foldChar_eq_rparen, and_assoc]

/-- The `/\(tk\)/i.test` scanner finds the tag exactly when the piece
contains `(tk)` as a case-insensitively matched substring. -/
theorem hasTag_iff_ContainsCI (t : Char) (cs : List Char) :
    hasTag t cs = true ↔ ContainsCI ['(', t, 'k', ')'] cs := by
  induction cs with
  | nil =>
    constructor
    · intro h; simp [hasTag] at h
    · rintro ⟨l, r, hl⟩
      have := congrArg List.length hl
      simp [foldCI] at this
      omega
  | cons c rest ih =>
    constructor
    · intro h
      simp only [hasTag, Bool.or_eq_true] at h
      rcases h with h1 | h2
      · match rest, h1 with
        | [], h1 => simp [tagHere] at h1
        | [b], h1 => simp [tagHere] at h1
        | [b, k], h1 => simp [tagHere] at h1
        | b :: k :: d :: r, h1 =>
          simp only [tagHere, Bool.and_eq_true, beq_iff_eq] at h1
          obtain ⟨⟨⟨ha, hb⟩, hk⟩, hd⟩ := h1
          refine ⟨[], foldCI r, ?_⟩
          subst ha hd
          simp [foldCI, foldChar_lparen_val, foldChar_rparen_val, hb, hk]
      · obtain ⟨l, r, hl⟩ := ih.mp h2
        refine ⟨foldChar c :: l, r, ?_⟩
        simp only [foldCI, List.map, List.cons_append] at hl ⊢
        rw [hl]
    · rintro ⟨l, r, hl⟩
      match l, hl with
      | [], hl =>
        simp only [foldCI, List.map, List.nil_append, List.cons_append,
          List.cons.injEq] at hl
        obtain ⟨hc, hl⟩ := hl
        match rest, hl with
        | [], hl => simp at hl
        | [b], hl => simp at hl
        | [b, k], hl => simp at hl
        | b :: k :: d :: r2, hl =>
          simp only [List.map, List.cons.injEq] at hl
          obtain ⟨hb, hk, hd, hr⟩ := hl
          have hc' : c = '(' := (foldChar_eq_lparen c).mp hc
          have hd' : d = ')' := (foldChar_eq_rparen d).mp hd
          subst hc' hd'
          simp [hasTag, tagHere, hb, hk]
      | x :: l2, hl =>
        simp only [foldCI, List.map, List.cons_append, List.cons.injEq] at hl
        obtain ⟨hx, hl⟩ := hl
        have hrest : ContainsCI ['(', t, 'k', ')'] rest := by
          refine ⟨l2, r, ?_⟩
          simp only [foldCI]
          rw [hl]
        have : hasTag t rest = true := ih.mpr hrest
        simp [hasTag, this]

theorem matchesAt_false_of_short (pat cs : List Char)
    (h : cs.length < pat.length) : matchesAt pat cs = false := by
  induction pat generalizing cs with
  | nil => simp at h
  | cons p ps ih =>
    match cs with
    | [] => simp [matchesAt]
    | c :: cs' =>
      have : cs'.length < ps.length := by simp at h; omega
      simp [matchesAt, ih cs' this]

theorem stripOccurrences_nil (pats : List (List Char)) :
    stripOccurrences pats [] = [] := by
  rw [stripOccurrences]

theorem stripOccurrences_tag_short (cs : List Char) (h : cs.length ≤ 3) :
    stripOccurrences tagPatterns cs = cs := by
  induction cs with
  | nil => exact stripOccurrences_nil _
  | cons c rest ih =>
    rw [stripOccurrences]
    have hfind : tagPatterns.find? (fun p => matchesAt p (c :: rest)) = none := by
      apply List.find?_eq_none.mpr
      intro p hp
      have hlen : (c :: rest).length < p.length := by
        simp only [tagPatterns, List.mem_cons, List.not_mem_nil, or_false] at hp
        rcases hp with rfl | rfl | rfl <;> simp <;> simp at h <;> omega
      simp [matchesAt_false_of_short p _ hlen]
    rw [hfind]
    have : rest.length ≤ 3 := by simp at h; omega
    rw [ih this]

/-- The global regex replace of `addTable` computes exactly the
left-to-right removal of every case-insensitive tag occurrence. -/
theorem removeTags_eq_stripOccurrences (cs : List Char) :
    removeTags cs = stripOccurrences tagPatterns cs := by
  induction cs using removeTags.induct with
  | case1 a b k d rest h ih =>
    have hsome : (List.find? (fun q => matchesAt q (a :: b :: k :: d :: rest))
        tagPatterns).isSome := by
      rw [List.find?_isSome]
      have h' := h
      unfold tagHereAny at h'
      rw [Bool.or_eq_true, Bool.or_eq_true] at h'
      rcases h' with (hp | hf) | hc
      · exact ⟨['(', 'p', 'k', ')'], by simp [tagPatterns],
          by rw [matchesAt_tag]; exact hp⟩
      · exact ⟨['(', 'f', 'k', ')'], by simp [tagPatterns],
          by rw [matchesAt_tag]; exact hf⟩
      · exact ⟨['(', 'c', 'k', ')'], by simp [tagPatterns],
          by rw [matchesAt_tag]; exact hc⟩
    obtain ⟨p, hfind⟩ := Option.isSome_iff_exists.mp hsome
    have hmem : p ∈ tagPatterns := List.mem_of_find?_eq_some hfind
    have hlen : p.length = 4 := by
      simp only [tagPatterns, List.mem_cons, List.not_mem_nil, or_false] at hmem
      rcases hmem with rfl | rfl | rfl <;> rfl
    rw [stripOccurrences, hfind]
    show removeTags (a :: b :: k :: d :: rest) =
      stripOccurrences tagPatterns (List.drop (p.length - 1) (b :: k :: d :: rest))
    rw [hlen]
    simp only [removeTags, h, if_true]
    simpa using ih
  | case2 a b k d rest h ih =>
    rw [Bool.not_eq_true] at h
    have h' := h
    unfold tagHereAny at h'
    rw [Bool.or_eq_false_iff, Bool.or_eq_false_iff] at h'
    obtain ⟨⟨hp, hf⟩, hc⟩ := h'
    have hfind : tagPatterns.find?
        (fun p => matchesAt p (a :: b :: k :: d :: rest)) = none := by
      simp [tagPatterns, List.find?, matchesAt_tag, hp, hf, hc]
    rw [stripOccurrences, hfind]
    simp only [removeTags, h]
    simp [ih]
  | case3 cs h =>
    match cs, h with
    | [], _ => simp [removeTags, stripOccurrences_nil]
    | [a], _ =>
      rw [stripOccurrences_tag_short [a] (by simp)]
      rfl
    | [a, b], _ =>
      rw [stripOccurrences_tag_short [a, b] (by simp)]
      rfl
    | [a, b, k], _ =>
      rw [stripOccurrences_tag_short [a, b, k] (by simp)]
      rfl
    | a :: b :: k :: d :: rest, h => exact (h a b k d rest rfl).elim

theorem parseColumns_eq_map (s : List Char) :
    parseColumns s = (trimmedPieces s).map parseColumnItem := rfl

/-- C1: the column parser of `addTable` splits the schema text on
commas, trims each piece and discards the pieces that trim to nothing;
each remaining piece yields exactly one column, in order, whose
`isPK`/`isFK`/`isCK` flags hold exactly when the piece contains the
substring `(pk)`/`(fk)`/`(ck)` case-insensitively, and whose name is
the piece with every such occurrence removed and then trimmed. -/
theorem addTable_column_parser_spec (s : List Char) :
    (parseColumns s).length = (trimmedPieces s).length ∧
    ∀ i : Fin (trimmedPieces s).length,
      ∃ col : Column,
        (parseColumns s)[i.val]? = some col ∧
        (col.isPK = true ↔ ContainsCI ['(', 'p', 'k', ')'] ((trimmedPieces s).get i)) ∧
        (col.isFK = true ↔ ContainsCI ['(', 'f', 'k', ')'] ((trimmedPieces s).get i)) ∧
        (col.isCK = true ↔ ContainsCI ['(', 'c', 'k', ')'] ((trimmedPieces s).get i)) ∧
        col.name = trimChars (stripOccurrences tagPatterns ((trimmedPieces s).get i)) := by
  constructor
  · rw [parseColumns_eq_map, List.length_map]
  · intro i
    refine ⟨parseColumnItem ((trimmedPieces s).get i), ?_, ?_, ?_, ?_, ?_⟩
    · rw [parseColumns_eq_map]
      rw [List.getElem?_map]
      rw [List.getElem?_eq_getElem i.isLt]
      simp
    · exact hasTag_iff_ContainsCI 'p' _
    · exact hasTag_iff_ContainsCI 'f' _
    · exact hasTag_iff_ContainsCI 'c' _
    · show trimChars (removeTags _) = _
      rw [removeTags_eq_stripOccurrences]

/-- C3: `onConnect` marks a `1:1` edge with a closed arrow at the
target only, a `1:N` edge with the `many-side` marker at the target
only, and an `N:M` edge with the `many-side` marker at both ends; the
three marker assignments are pairwise distinct. -/
theorem onConnect_marker_assignment (params : Connection) (now : Int) :
    ((onConnectEdge "1:1" params now).markerStart = none ∧
      (onConnectEdge "1:1" params now).markerEnd =
        some (EdgeMarker.arrowClosed "#3b82f6" 15 15)) ∧
    ((onConnectEdge "1:N" params now).markerStart = none ∧
      (onConnectEdge "1:N" params now).markerEnd =
        some (EdgeMarker.named "many-side")) ∧
    ((onConnectEdge "N:M" params now).markerStart =
        some (EdgeMarker.named "many-side") ∧
      (onConnectEdge "N:M" params now).markerEnd =
        some (EdgeMarker.named "many-side")) ∧
    ((onConnectEdge "1:1" params now).markerStart,
        (onConnectEdge "1:1" params now).markerEnd) ≠
      ((onConnectEdge "1:N" params now).markerStart,
        (onConnectEdge "1:N" params now).markerEnd) ∧
    ((onConnectEdge "1:1" params now).markerStart,
        (onConnectEdge "1:1" params now).markerEnd) ≠
      ((onConnectEdge "N:M" params now).markerStart,
        (onConnectEdge "N:M" params now).markerEnd) ∧
    ((onConnectEdge "1:N" params now).markerStart,
        (onConnectEdge "1:N" params now).markerEnd) ≠
      ((onConnectEdge "N:M" params now).markerStart,
        (onConnectEdge "N:M" params now).markerEnd) := by
  refine ⟨⟨rfl, rfl⟩, ⟨rfl, rfl⟩, ⟨rfl, rfl⟩, ?_, ?_, ?_⟩
  · simp only [onConnectEdge]
    decide
  · simp only [onConnectEdge]
    decide
  · simp only [onConnectEdge]
    decide

/-- C4: the `'json'` branch of `exportDiagram` downloads exactly the
serialisation of the current nodes, edges and legend (three fields and
nothing else), succeeds for every state — the empty diagram included —
and returns before any code that could touch the state. -/
theorem exportDiagram_json_export (st : AppState) (now : Int)
    (domPresent : Bool) (boundsOf : List Node → Bounds)
    (render : ImgKind → ExportOptions → Except Unit String) :
    exportDiagram "json" st now domPresent boundsOf render =
      (st, ExportOutcome.jsonDownload
        ("database_model_" ++ toString now ++ ".json")
        (Json.obj
          [("nodes", Json.arr (st.nodes.map encodeNode)),
           ("edges", Json.arr (st.edges.map encodeEdge)),
           ("legend", Json.arr (st.legend.map encodeLegendItem))])) := rfl

/-- C5: `onDeleteNode` keeps exactly the nodes with a different id and
exactly the edges touching the deleted id at neither end, in their
original order and otherwise unchanged; afterwards no surviving edge
refers to the deleted node. -/
theorem onDeleteNode_removes_node_and_incident_edges (id : String)
    (st : AppState) :
    (∀ n : Node, n ∈ (onDeleteNode id st).nodes ↔ n ∈ st.nodes ∧ n.id ≠ id) ∧
    (onDeleteNode id st).nodes.Sublist st.nodes ∧
    (∀ e : Edge, e ∈ (onDeleteNode id st).edges ↔
      e ∈ st.edges ∧ e.source ≠ id ∧ e.target ≠ id) ∧
    (onDeleteNode id st).edges.Sublist st.edges ∧
    (∀ e : Edge, e ∈ (onDeleteNode id st).edges →
      e.source ≠ id ∧ e.target ≠ id) := by
  refine ⟨?_, ?_, ?_, ?_, ?_⟩
  · intro n
    simp [onDeleteNode, List.mem_filter, bne_iff_ne]
  · exact List.filter_sublist _
  · intro e
    simp [onDeleteNode, List.mem_filter, bne_iff_ne, and_assoc]
  · exact List.filter_sublist _
  · intro e he
    have := List.of_mem_filter he
    simp only [Bool.and_eq_true, bne_iff_ne] at this
    exact this

/-- C7: `handleRenameLegend` keeps the legend's length and order,
replaces only the `name` of the entries whose id matches, keeps every
other entry entirely unchanged, and never changes any entry's id or
hex swatch. -/
theorem handleRenameLegend_renames_only_matching_name (id newName : String)
    (legend : List LegendItem) :
    (handleRenameLegend id newName legend).length = legend.length ∧
    ∀ i : Fin legend.length,
      (handleRenameLegend id newName legend)[i.val]? =
        some (if (legend.get i).id = id
              then { legend.get i with name := newName }
              else legend.get i) ∧
      ∀ item : LegendItem,
        (handleRenameLegend id newName legend)[i.val]? = some item →
          item.id = (legend.get i).id ∧ item.hex = (legend.get i).hex := by
  refine ⟨by simp [handleRenameLegend], ?_⟩
  intro i
  have hg : (handleRenameLegend id newName legend)[i.val]? =
      some (if (legend.get i).id = id
            then { legend.get i with name := newName }
            else legend.get i) := by
    rw [handleRenameLegend, List.getElem?_map, List.getElem?_eq_getElem i.isLt]
    simp only [Option.map_some]
    congr 1
  refine ⟨hg, ?_⟩
  intro item hitem
  rw [hg] at hitem
  have hitem' : (if (legend.get i).id = id
      then { legend.get i with name := newName }
      else legend.get i) = item := Option.some.inj hitem
  subst hitem'
  split <;> simp

theorem initStored_arr (saved : Option String)
    (parse : String → Except Unit Json) :
    ∃ l : List Json, initStored saved parse = Json.arr l := by
  match saved with
  | none => exact ⟨[], rfl⟩
  | some s =>
    rw [initStored]
    split
    · exact ⟨[], rfl⟩
    · match parse s with
      | .error e => exact ⟨[], rfl⟩
      | .ok v =>
        match v with
        | Json.null => exact ⟨[], rfl⟩
        | Json.bool b => exact ⟨[], rfl⟩
        | Json.num q => exact ⟨[], rfl⟩
        | Json.str t => exact ⟨[], rfl⟩
        | Json.arr l => exact ⟨l, rfl⟩
        | Json.obj f => exact ⟨[], rfl⟩

/-- C9: whatever the persisted `nodes`/`edges` entry holds — absent,
empty, malformed, or well-formed but not an array — the initial state
is an array: the parsed array when parsing yields one, and the empty
array in every other case. -/
theorem initial_state_is_array (saved : Option String)
    (parse : String → Except Unit Json) :
    ∃ l : List Json,
      initStored saved parse = Json.arr l ∧
      ((∃ s, saved = some s ∧ s ≠ "" ∧ parse s = .ok (Json.arr l)) ∨
       (l = [] ∧
        (saved = none ∨ saved = some "" ∨
         ∃ s, saved = some s ∧ s ≠ "" ∧
           ((∃ e, parse s = .error e) ∨
            ∃ v, parse s = .ok v ∧ ∀ xs : List Json, v ≠ Json.arr xs)))) := by
  match saved with
  | none => exact ⟨[], rfl, Or.inr ⟨rfl, Or.inl rfl⟩⟩
  | some s =>
    by_cases hs : s = ""
    · subst hs
      exact ⟨[], rfl, Or.inr ⟨rfl, Or.inr (Or.inl rfl)⟩⟩
    · have hstep : initStored (some s) parse =
          (match parse s with
           | .error _ => Json.arr []
           | .ok v =>
             match v with
             | Json.arr l => Json.arr l
             | _ => Json.arr []) := by
        rw [initStored, if_neg hs]
      match hp : parse s with
      | .error e =>
        refine ⟨[], ?_, Or.inr ⟨rfl, Or.inr (Or.inr ⟨s, rfl, hs, Or.inl ⟨e, hp⟩⟩)⟩⟩
        rw [hstep, hp]
      | .ok v =>
        match v with
        | Json.arr l =>
          refine ⟨l, ?_, Or.inl ⟨s, rfl, hs, hp⟩⟩
          rw [hstep, hp]
        | Json.null =>
          refine ⟨[], ?_, Or.inr ⟨rfl, Or.inr (Or.inr
            ⟨s, rfl, hs, Or.inr ⟨Json.null, hp, fun xs => by simp⟩⟩)⟩⟩
          rw [hstep, hp]
        | Json.bool b =>
          refine ⟨[], ?_, Or.inr ⟨rfl, Or.inr (Or.inr
            ⟨s, rfl, hs, Or.inr ⟨Json.bool b, hp, fun xs => by simp⟩⟩)⟩⟩
          rw [hstep, hp]
        | Json.num q =>
          refine ⟨[], ?_, Or.inr ⟨rfl, Or.inr (Or.inr
            ⟨s, rfl, hs, Or.inr ⟨Json.num q, hp, fun xs => by simp⟩⟩)⟩⟩
          rw [hstep, hp]
        | Json.str t =>
          refine ⟨[], ?_, Or.inr ⟨rfl, Or.inr (Or.inr
            ⟨s, rfl, hs, Or.inr ⟨Json.str t, hp, fun xs => by simp⟩⟩)⟩⟩
          rw [hstep, hp]
        | Json.obj f =>
          refine ⟨[], ?_, Or.inr ⟨rfl, Or.inr (Or.inr
            ⟨s, rfl, hs, Or.inr ⟨Json.obj f, hp, fun xs => by simp⟩⟩)⟩⟩
          rw [hstep, hp]

/-- C10: starting from any persisted data, the `nodes` and `edges`
state cells are arrays in every reachable state, and every array
method the updaters call on them (`.filter`, `.map`, `.concat`) is
defined there. -/
theorem state_containers_always_arrays (s : Json × Json)
    (h : ReachableState s) :
    (∃ ln, s.1 = Json.arr ln) ∧ (∃ le, s.2 = Json.arr le) ∧
    (∀ p, (jsFilter p s.1).isSome) ∧ (∀ f, (jsMap f s.1).isSome) ∧
    (∀ v, (jsConcat v s.1).isSome) ∧ (∀ p, (jsFilter p s.2).isSome) ∧
    (∀ f, (jsMap f s.2).isSome) ∧ (∀ v, (jsConcat v s.2).isSome) := by
  induction h with
  | init savedN savedE parseN parseE =>
    obtain ⟨ln, hn⟩ := initStored_arr savedN parseN
    obtain ⟨le, he⟩ := initStored_arr savedE parseE
    refine ⟨⟨ln, hn⟩, ⟨le, he⟩, ?_, ?_, ?_, ?_, ?_, ?_⟩ <;>
      intro x <;> simp [hn, he, jsFilter, jsMap, jsConcat]
  | step s t hs hst ih =>
    obtain ⟨⟨ln, hn⟩, ⟨le, he⟩, -⟩ := ih
    have harr : (∃ ln2, t.1 = Json.arr ln2) ∧ ∃ le2, t.2 = Json.arr le2 := by
      cases hst with
      | addTableNew ns es v ns' hconv =>
        have hn' : ns = Json.arr ln := hn
        have he' : es = Json.arr le := he
        subst hn'
        simp only [jsConcat, Option.some.injEq] at hconv
        exact ⟨⟨ln ++ [v], hconv.symm⟩, ⟨le, he'⟩⟩
      | addTableEdit ns es f ns' hmap =>
        have hn' : ns = Json.arr ln := hn
        have he' : es = Json.arr le := he
        subst hn'
        simp only [jsMap, Option.some.injEq] at hmap
        exact ⟨⟨ln.map f, hmap.symm⟩, ⟨le, he'⟩⟩
      | deleteNode ns es p q ns' es' hfn hfe =>
        have hn' : ns = Json.arr ln := hn
        have he' : es = Json.arr le := he
        subst hn'
        subst he'
        simp only [jsFilter, Option.some.injEq] at hfn hfe
        exact ⟨⟨ln.filter p, hfn.symm⟩, ⟨le.filter q, hfe.symm⟩⟩
      | deleteEdge ns es p es' hfe =>
        have hn' : ns = Json.arr ln := hn
        have he' : es = Json.arr le := he
        subst he'
        simp only [jsFilter, Option.some.injEq] at hfe
        exact ⟨⟨ln, hn'⟩, ⟨le.filter p, hfe.symm⟩⟩
      | connect ns es l addEdgeImpl hes =>
        exact ⟨⟨ln, hn⟩, ⟨addEdgeImpl l, rfl⟩⟩
      | nodesChange ns es l applyChanges hns =>
        exact ⟨⟨applyChanges l, rfl⟩, ⟨le, he⟩⟩
      | edgesChange ns es l applyChanges hes =>
        exact ⟨⟨ln, hn⟩, ⟨applyChanges l, rfl⟩⟩
    obtain ⟨⟨ln2, hn2⟩, ⟨le2, he2⟩⟩ := harr
    refine ⟨⟨ln2, hn2⟩, ⟨le2, he2⟩, ?_, ?_, ?_, ?_, ?_, ?_⟩ <;>
      intro x <;> simp [hn2, he2, jsFilter, jsMap, jsConcat]

/-- C10 witness: the invariant instantiated at a concrete startup
state (nothing persisted, a throwing parser). -/
theorem state_containers_always_arrays_witness :
    (∃ ln, (initStored none failParse, initStored none failParse).1 = Json.arr ln) ∧
    (∃ le, (initStored none failParse, initStored none failParse).2 = Json.arr le) ∧
    (∀ p, (jsFilter p (initStored none failParse, initStored none failParse).1).isSome) ∧
    (∀ f, (jsMap f (initStored none failParse, initStored none failParse).1).isSome) ∧
    (∀ v, (jsConcat v (initStored none failParse, initStored none failParse).1).isSome) ∧
    (∀ p, (jsFilter p (initStored none failParse, initStored none failParse).2).isSome) ∧
    (∀ f, (jsMap f (initStored none failParse, initStored none failParse).2).isSome) ∧
    (∀ v, (jsConcat v (initStored none failParse, initStored none failParse).2).isSome) :=
  state_containers_always_arrays _
    (ReachableState.init none none failParse failParse)

/-- C8 counterexample: with an image format and an empty diagram,
`exportDiagram` returns before rendering — no download is triggered
and no alert is raised, although the claim promises one of the two. -/
theorem exportDiagram_image_empty_counterexample :
    exportDiagram "svg" emptyState 0 true sampleBounds okRender =
      (emptyState, ExportOutcome.nothing) ∧
    ExportOutcome.nothing ≠ ExportOutcome.alertFailure := by
  constructor
  · rfl
  · intro hcon
    cases hcon

/-- C8 (amended): with an image format, when the canvas element is
present and the diagram is non-empty, `exportDiagram` invokes the svg
renderer exactly for format `'svg'` and the png renderer otherwise,
on options that add the margins and place the legend beside the
shifted nodes; a successful render downloads the data url, and a
rendering error leaves everything unchanged and alerts instead.  With
no nodes (or no canvas element) nothing happens. -/
theorem exportDiagram_image_export (format : String) (st : AppState)
    (now : Int) (boundsOf : List Node → Bounds)
    (render : ImgKind → ExportOptions → Except Unit String)
    (hf : format ≠ "json") (hn : st.nodes ≠ []) :
    (exportDiagram format st now true boundsOf render).1 = st ∧
    (exportDiagram format st now true boundsOf render).2 =
      (match render (if format = "svg" then ImgKind.svg else ImgKind.png)
          (mkExportOptions (boundsOf st.nodes)) with
       | .ok dataUrl =>
         ExportOutcome.imageDownload
           ("db_model_" ++ toString now ++ "." ++ format)
           (if format = "svg" then ImgKind.svg else ImgKind.png)
           (mkExportOptions (boundsOf st.nodes)) dataUrl
       | .error _ => ExportOutcome.alertFailure) ∧
    (mkExportOptions (boundsOf st.nodes)).width =
      (boundsOf st.nodes).width + legendBuffer + exportMargin * 2 ∧
    (mkExportOptions (boundsOf st.nodes)).height =
      (boundsOf st.nodes).height + exportMargin * 2 ∧
    (mkExportOptions (boundsOf st.nodes)).viewportX =
      -(boundsOf st.nodes).x + legendBuffer := by
  have hne : (!true || st.nodes.isEmpty) = false := by
    simp [List.isEmpty_iff, hn]
  have hmain : exportDiagram format st now true boundsOf render =
      (st, match render (if format = "svg" then ImgKind.svg else ImgKind.png)
          (mkExportOptions (boundsOf st.nodes)) with
       | .ok dataUrl =>
         ExportOutcome.imageDownload
           ("db_model_" ++ toString now ++ "." ++ format)
           (if format = "svg" then ImgKind.svg else ImgKind.png)
           (mkExportOptions (boundsOf st.nodes)) dataUrl
       | .error _ => ExportOutcome.alertFailure) := by
    rw [exportDiagram, if_neg hf]
    rw [if_neg (by rw [hne]; exact Bool.false_ne_true)]
    show (match render (if format = "svg" then ImgKind.svg else ImgKind.png)
          (mkExportOptions (boundsOf st.nodes)) with
        | Except.ok dataUrl =>
          (st, ExportOutcome.imageDownload
            ("db_model_" ++ toString now ++ "." ++ format)
            (if format = "svg" then ImgKind.svg else ImgKind.png)
            (mkExportOptions (boundsOf st.nodes)) dataUrl)
        | Except.error e => (st, ExportOutcome.alertFailure)) = _
    cases render (if format = "svg" then ImgKind.svg else ImgKind.png)
        (mkExportOptions (boundsOf st.nodes)) with
    | ok dataUrl => rfl
    | error e => rfl
  refine ⟨by rw [hmain], by rw [hmain], rfl, rfl, rfl⟩

/-- C8 witness: the amended theorem at a concrete non-empty state
with a succeeding renderer. -/
theorem exportDiagram_image_export_witness :
    ("svg" ≠ "json" ∧ sampleEditState.nodes ≠ []) ∧
    ((exportDiagram "svg" sampleEditState 7 true sampleBounds okRender).1 =
       sampleEditState ∧
     (exportDiagram "svg" sampleEditState 7 true sampleBounds okRender).2 =
      (match okRender (if "svg" = "svg" then ImgKind.svg else ImgKind.png)
          (mkExportOptions (sampleBounds sampleEditState.nodes)) with
       | .ok dataUrl =>
         ExportOutcome.imageDownload
           ("db_model_" ++ toString (7 : Int) ++ "." ++ "svg")
           (if "svg" = "svg" then ImgKind.svg else ImgKind.png)
           (mkExportOptions (sampleBounds sampleEditState.nodes)) dataUrl
       | .error _ => ExportOutcome.alertFailure) ∧
     (mkExportOptions (sampleBounds sampleEditState.nodes)).width =
       (sampleBounds sampleEditState.nodes).width + legendBuffer + exportMargin * 2 ∧
     (mkExportOptions (sampleBounds sampleEditState.nodes)).height =
       (sampleBounds sampleEditState.nodes).height + exportMargin * 2 ∧
     (mkExportOptions (sampleBounds sampleEditState.nodes)).viewportX =
       -(sampleBounds sampleEditState.nodes).x + legendBuffer) :=
  ⟨⟨by decide, by decide⟩,
    exportDiagram_image_export "svg" sampleEditState 7 sampleBounds okRender
      (by decide) (by decide)⟩

/-- C2: with a non-empty table name, `addTable` clears the form; when
no node is being edited it appends exactly one node carrying the
entered name, the selected colour and the parsed columns; when a node
is being edited it replaces only that node's data (id, kind and
position untouched) and leaves every other node unchanged. -/
theorem addTable_updates_nodes (now : Int) (st : AppState)
    (h : st.tableName ≠ "") :
    (addTable now st).tableName = "" ∧
    (addTable now st).schemaText = [] ∧
    (st.editingNodeId = none →
      (addTable now st).nodes =
        st.nodes ++
          [{ id := "node_" ++ toString now, type := "tableNode",
             position := (350, 150),
             data := { label := st.tableName,
                       columns := parseColumns st.schemaText,
                       color := st.selectedColor } }]) ∧
    (∀ eid, st.editingNodeId = some eid →
      (addTable now st).nodes.length = st.nodes.length ∧
      ∀ i : Fin st.nodes.length,
        (addTable now st).nodes[i.val]? =
          some (if (st.nodes.get i).id = eid
                then { st.nodes.get i with
                       data := { label := st.tableName,
                                 columns := parseColumns st.schemaText,
                                 color := st.selectedColor } }
                else st.nodes.get i)) := by
  rw [addTable, if_neg h]
  match hed : st.editingNodeId with
  | none =>
    refine ⟨rfl, rfl, fun _ => rfl, ?_⟩
    intro eid heid
    cases heid
  | some eid0 =>
    refine ⟨rfl, rfl, ?_, ?_⟩
    · intro hcon
      cases hcon
    · intro eid heid
      have heq : eid0 = eid := Option.some.inj heid
      subst heq
      refine ⟨by simp, ?_⟩
      intro i
      show (st.nodes.map fun n =>
          if n.id = eid0 then
            { n with data := { label := st.tableName,
                               columns := parseColumns st.schemaText,
                               color := st.selectedColor } }
          else n)[i.val]? = _
      rw [List.getElem?_map, List.getElem?_eq_getElem i.isLt]
      simp only [Option.map_some]
      congr 1

/-- C2 witness: `addTable` applied in the concrete editing state. -/
theorem addTable_updates_nodes_witness :
    sampleEditState.tableName ≠ "" ∧
    ((addTable 9 sampleEditState).tableName = "" ∧
     (addTable 9 sampleEditState).schemaText = [] ∧
     (sampleEditState.editingNodeId = none →
       (addTable 9 sampleEditState).nodes =
         sampleEditState.nodes ++
           [{ id := "node_" ++ toString (9 : Int), type := "tableNode",
              position := (350, 150),
              data := { label := sampleEditState.tableName,
                        columns := parseColumns sampleEditState.schemaText,
                        color := sampleEditState.selectedColor } }]) ∧
     (∀ eid, sampleEditState.editingNodeId = some eid →
       (addTable 9 sampleEditState).nodes.length = sampleEditState.nodes.length ∧
       ∀ i : Fin sampleEditState.nodes.length,
         (addTable 9 sampleEditState).nodes[i.val]? =
           some (if (sampleEditState.nodes.get i).id = eid
                 then { sampleEditState.nodes.get i with
                        data := { label := sampleEditState.tableName,
                                  columns := parseColumns sampleEditState.schemaText,
                                  color := sampleEditState.selectedColor } }
                 else sampleEditState.nodes.get i))) :=
  ⟨by decide, addTable_updates_nodes 9 sampleEditState (by decide)⟩

/-! ## Round-trip support: trimming and splitting -/

theorem trimChars_eq_self (cs : List Char) (h1 : headWS cs = false)
    (h2 : lastWS cs = false) : trimChars cs = cs := by
  match cs with
  | [] => rfl
  | a :: l =>
    have ha : a.isWhitespace = false := by
      simpa [headWS] using h1
    rw [trimChars, List.dropWhile_cons, ha]
    simp only [Bool.false_eq_true, if_false]
    match hr : (a :: l).reverse with
    | [] => exact absurd (congrArg List.length hr) (by simp)
    | b :: r2 =>
      have hb : b.isWhitespace = false := by
        have := List.head?_reverse (a :: l)
        rw [hr] at this
        simp only [List.head?_cons] at this
        simpa [lastWS, ← this] using h2
      rw [List.dropWhile_cons, hb]
      simp only [Bool.false_eq_true, if_false]
      rw [← hr, List.reverse_reverse]

theorem trimChars_cons_space (cs : List Char) :
    trimChars (' ' :: cs) = trimChars cs := by
  rw [trimChars, trimChars, List.dropWhile_cons]
  simp

theorem trimChars_append_space (cs : List Char) (hne : cs ≠ [])
    (h1 : headWS cs = false) (h2 : lastWS cs = false) :
    trimChars (cs ++ [' ']) = cs := by
  match cs with
  | a :: l =>
    have ha : a.isWhitespace = false := by
      simpa [headWS] using h1
    rw [trimChars, List.cons_append, List.dropWhile_cons, ha]
    simp only [Bool.false_eq_true, if_false]
    have hrev : (a :: (l ++ [' '])).reverse = ' ' :: (a :: l).reverse := by
      simp
    rw [hrev, List.dropWhile_cons, if_pos (by decide)]
    match hr : (a :: l).reverse with
    | [] => exact absurd (congrArg List.length hr) (by simp)
    | b :: r2 =>
      have hb : b.isWhitespace = false := by
        have := List.head?_reverse (a :: l)
        rw [hr] at this
        simp only [List.head?_cons] at this
        simpa [lastWS, ← this] using h2
      rw [List.dropWhile_cons, hb]
      simp only [Bool.false_eq_true, if_false]
      rw [← hr, List.reverse_reverse]

theorem splitComma_ne_nil (cs : List Char) : splitComma cs ≠ [] := by
  match cs with
  | [] => simp [splitComma]
  | c :: rest =>
    rw [splitComma]
    split
    · simp
    · match h : splitComma rest with
      | [] => simp
      | p :: ps => simp

theorem splitComma_no_comma (cs : List Char) (h : ',' ∉ cs) :
    splitComma cs = [cs] := by
  induction cs with
  | nil => rfl
  | cons c rest ih =>
    have hc : ¬ c = ',' := fun hcc => h (hcc ▸ List.mem_cons_self c rest)
    have hrest : ',' ∉ rest := fun hr => h (List.mem_cons_of_mem c hr)
    rw [splitComma, if_neg hc, ih hrest]

theorem splitComma_append_comma (a rest : List Char) (h : ',' ∉ a) :
    splitComma (a ++ ',' :: rest) = a :: splitComma rest := by
  induction a with
  | nil =>
    rw [List.nil_append, splitComma, if_pos rfl]
  | cons c a2 ih =>
    have hc : ¬ c = ',' := fun hcc => h (hcc ▸ List.mem_cons_self c a2)
    have ha2 : ',' ∉ a2 := fun hr => h (List.mem_cons_of_mem c hr)
    rw [List.cons_append, splitComma, if_neg hc, ih ha2]

theorem mapTrim_splitComma_space (rest : List Char) :
    (splitComma (' ' :: rest)).map trimChars =
      (splitComma rest).map trimChars := by
  rw [splitComma, if_neg (by decide)]
  match h : splitComma rest with
  | [] => exact absurd h (splitComma_ne_nil rest)
  | p :: ps =>
    simp only [List.map_cons]
    rw [trimChars_cons_space]

/-! ## Round-trip support: tag windows never cross a space

A tag pattern consists of `(`, a letter, `k`, `)` — no whitespace — so
a four-character window that contains the space separating a column
name from its appended tag can never match, and the scanners distribute
over `name ++ ' ' :: tag`. -/

theorem tagHere_cons_irrelevant (t a b k d : Char) (r r2 : List Char) :
    tagHere t (a :: b :: k :: d :: r) = tagHere t (a :: b :: k :: d :: r2) := rfl

theorem tagHere_append_space (t : Char) (ht : (' ' == t) = false)
    (c : Char) (nm suf : List Char) :
    tagHere t (c :: (nm ++ ' ' :: suf)) = tagHere t (c :: nm) := by
  match nm with
  | [] =>
    match suf with
    | [] => simp [tagHere]
    | [x] => simp [tagHere]
    | x :: y :: s =>
      show (c == '(' && foldChar ' ' == t && foldChar x == 'k' && y == ')') =
        tagHere t [c]
      rw [show foldChar ' ' = ' ' from rfl, ht]
      simp [tagHere]
  | [x] =>
    match suf with
    | [] => simp [tagHere]
    | y :: s =>
      show (c == '(' && foldChar x == t && foldChar ' ' == 'k' && y == ')') =
        tagHere t [c, x]
      rw [show foldChar ' ' = ' ' from rfl]
      simp [tagHere]
  | [x, y] =>
    show (c == '(' && foldChar x == t && foldChar y == 'k' && ' ' == ')') =
      tagHere t [c, x, y]
    simp [tagHere]
  | x :: y :: z :: nm2 =>
    rw [show c :: ((x :: y :: z :: nm2) ++ ' ' :: suf) =
      c :: x :: y :: z :: (nm2 ++ ' ' :: suf) from rfl]
    exact tagHere_cons_irrelevant t c x y z _ nm2

theorem hasTag_append_space (t : Char) (ht : (' ' == t) = false)
    (nm suf : List Char) :
    hasTag t (nm ++ ' ' :: suf) = (hasTag t nm || hasTag t (' ' :: suf)) := by
  induction nm with
  | nil => simp [hasTag]
  | cons c nm2 ih =>
    rw [List.cons_append, hasTag, tagHere_append_space t ht, ih]
    rw [show hasTag t (c :: nm2) = (tagHere t (c :: nm2) || hasTag t nm2) from
      rfl]
    rw [Bool.or_assoc]

theorem removeTags_cons_of_not_tagHereAny (c : Char) (rest : List Char)
    (h : tagHereAny (c :: rest) = false) :
    removeTags (c :: rest) = c :: removeTags rest := by
  match rest with
  | [] => rfl
  | [b] => rfl
  | [b, k] => rfl
  | b :: k :: d :: r =>
    rw [removeTags, if_neg (by rw [h]; exact Bool.false_ne_true)]

theorem tagHereAny_eq_false_of_hasTag (cs : List Char)
    (hp : hasTag 'p' cs = false) (hf : hasTag 'f' cs = false)
    (hc : hasTag 'c' cs = false) : tagHereAny cs = false := by
  match cs with
  | [] => rfl
  | c :: rest =>
    rw [hasTag] at hp hf hc
    rw [tagHereAny]
    rw [(Bool.or_eq_false_iff.mp hp).1, (Bool.or_eq_false_iff.mp hf).1,
      (Bool.or_eq_false_iff.mp hc).1]
    rfl

theorem removeTags_eq_self_of_tagFree (cs : List Char)
    (hp : hasTag 'p' cs = false) (hf : hasTag 'f' cs = false)
    (hc : hasTag 'c' cs = false) : removeTags cs = cs := by
  induction cs with
  | nil => rfl
  | cons c rest ih =>
    rw [removeTags_cons_of_not_tagHereAny c rest
      (tagHereAny_eq_false_of_hasTag _ hp hf hc)]
    rw [hasTag] at hp hf hc
    rw [ih (Bool.or_eq_false_iff.mp hp).2 (Bool.or_eq_false_iff.mp hf).2
      (Bool.or_eq_false_iff.mp hc).2]

theorem removeTags_append_space (nm suf : List Char)
    (hp : hasTag 'p' nm = false) (hf : hasTag 'f' nm = false)
    (hc : hasTag 'c' nm = false) :
    removeTags (nm ++ ' ' :: suf) = nm ++ removeTags (' ' :: suf) := by
  induction nm with
  | nil => rfl
  | cons c nm2 ih =>
    rw [hasTag] at hp hf hc
    have hAny : tagHereAny (c :: (nm2 ++ ' ' :: suf)) = false := by
      rw [tagHereAny, tagHere_append_space 'p' (by decide),
        tagHere_append_space 'f' (by decide),
        tagHere_append_space 'c' (by decide),
        (Bool.or_eq_false_iff.mp hp).1, (Bool.or_eq_false_iff.mp hf).1,
        (Bool.or_eq_false_iff.mp hc).1]
      rfl
    rw [List.cons_append, removeTags_cons_of_not_tagHereAny _ _ hAny,
      ih (Bool.or_eq_false_iff.mp hp).2 (Bool.or_eq_false_iff.mp hf).2
        (Bool.or_eq_false_iff.mp hc).2, List.cons_append]

/-! ## Round-trip support: one serialised column -/

theorem headWS_append (nm suf : List Char) (hne : nm ≠ []) :
    headWS (nm ++ suf) = headWS nm := by
  match nm with
  | a :: l => rfl

theorem lastWS_append_tag (nm : List Char) (t : Char) :
    lastWS (nm ++ [' ', '(', t, 'k', ')']) = false := by
  rw [lastWS, List.getLast?_append]
  rfl

/-- Parsing one serialised good column recovers it, and the
serialisation is comma-free, non-empty, and not whitespace-padded. -/
theorem parse_serializeColumn (c : Column) (h : GoodColumn c) :
    parseColumnItem (serializeColumn c) = c ∧
    ',' ∉ serializeColumn c ∧
    serializeColumn c ≠ [] ∧
    headWS (serializeColumn c) = false ∧
    lastWS (serializeColumn c) = false := by
  obtain ⟨nm, pk, fk, ck⟩ := c
  obtain ⟨hPK, hFK, hne, hcomma, hp, hf, hc, hhead, hlast⟩ := h
  simp only at hPK hFK hne hcomma hp hf hc hhead hlast
  match pk, fk, ck, hPK, hFK with
  | true, fk, ck, hPK, hFK =>
    obtain ⟨hfk0, hck0⟩ := hPK rfl
    subst hfk0 hck0
    have hser : serializeColumn ⟨nm, true, false, false⟩ =
        nm ++ ' ' :: ['(', 'p', 'k', ')'] := rfl
    refine ⟨?_, ?_, ?_, ?_, ?_⟩
    · rw [parseColumnItem, hser]
      rw [hasTag_append_space 'p' (by decide) nm _,
        hasTag_append_space 'f' (by decide) nm _,
        hasTag_append_space 'c' (by decide) nm _, hp, hf, hc]
      rw [removeTags_append_space nm _ hp hf hc]
      rw [show removeTags (' ' :: ['(', 'p', 'k', ')']) = [' '] from rfl]
      rw [trimChars_append_space nm hne hhead hlast]
      rfl
    · rw [hser]
      intro hmem
      rcases List.mem_append.mp hmem with hmem | hmem
      · exact hcomma hmem
      · simp at hmem
    · rw [hser]
      simp
    · rw [hser, headWS_append nm _ hne]
      exact hhead
    · exact lastWS_append_tag nm 'p'
  | false, true, ck, hPK, hFK =>
    have hck0 := hFK rfl
    subst hck0
    have hser : serializeColumn ⟨nm, false, true, false⟩ =
        nm ++ ' ' :: ['(', 'f', 'k', ')'] := rfl
    refine ⟨?_, ?_, ?_, ?_, ?_⟩
    · rw [parseColumnItem, hser]
      rw [hasTag_append_space 'p' (by decide) nm _,
        hasTag_append_space 'f' (by decide) nm _,
        hasTag_append_space 'c' (by decide) nm _, hp, hf, hc]
      rw [removeTags_append_space nm _ hp hf hc]
      rw [show removeTags (' ' :: ['(', 'f', 'k', ')']) = [' '] from rfl]
      rw [trimChars_append_space nm hne hhead hlast]
      rfl
    · rw [hser]
      intro hmem
      rcases List.mem_append.mp hmem with hmem | hmem
      · exact hcomma hmem
      · simp at hmem
    · rw [hser]
      simp
    · rw [hser, headWS_append nm _ hne]
      exact hhead
    · exact lastWS_append_tag nm 'f'
  | false, false, true, hPK, hFK =>
    have hser : serializeColumn ⟨nm, false, false, true⟩ =
        nm ++ ' ' :: ['(', 'c', 'k', ')'] := rfl
    refine ⟨?_, ?_, ?_, ?_, ?_⟩
    · rw [parseColumnItem, hser]
      rw [hasTag_append_space 'p' (by decide) nm _,
        hasTag_append_space 'f' (by decide) nm _,
        hasTag_append_space 'c' (by decide) nm _, hp, hf, hc]
      rw [removeTags_append_space nm _ hp hf hc]
      rw [show removeTags (' ' :: ['(', 'c', 'k', ')']) = [' '] from rfl]
      rw [trimChars_append_space nm hne hhead hlast]
      rfl
    · rw [hser]
      intro hmem
      rcases List.mem_append.mp hmem with hmem | hmem
      · exact hcomma hmem
      · simp at hmem
    · rw [hser]
      simp
    · rw [hser, headWS_append nm _ hne]
      exact hhead
    · exact lastWS_append_tag nm 'c'
  | false, false, false, hPK, hFK =>
    have hser : serializeColumn ⟨nm, false, false, false⟩ = nm := by
      rw [serializeColumn]
      rw [show columnTag ⟨nm, false, false, false⟩ = [] from rfl]
      exact List.append_nil nm
    refine ⟨?_, ?_, ?_, ?_, ?_⟩
    · rw [parseColumnItem, hser, hp, hf, hc,
        removeTags_eq_self_of_tagFree nm hp hf hc,
        trimChars_eq_self nm hhead hlast]
    · rw [hser]
      exact hcomma
    · rw [hser]
      exact hne
    · rw [hser]
      exact hhead
    · rw [hser]
      exact hlast

/-- C6: serialising a column list with `onStartEdit`'s tag formatting
(a ` (pk)`/` (fk)`/` (ck)` suffix per flagged column, joined with
`', '`) and re-parsing the text with `addTable`'s column parser
recovers the original list, provided each column has at most one flag
and a non-empty name free of commas, case-insensitive tag substrings,
and surrounding whitespace. -/
theorem onStartEdit_addTable_roundtrip (cols : List Column)
    (h : ∀ c ∈ cols, GoodColumn c) :
    parseColumns (onStartEditText cols) = cols := by
  induction cols with
  | nil => rfl
  | cons c cs ih =>
    have hgood := h c (List.mem_cons_self c cs)
    obtain ⟨hparse, hcomma, hne, hhead, hlast⟩ :=
      parse_serializeColumn c hgood
    have htrim : trimChars (serializeColumn c) = serializeColumn c :=
      trimChars_eq_self _ hhead hlast
    have hEmpty : (serializeColumn c).isEmpty = false := by
      match hser : serializeColumn c with
      | [] => exact absurd hser hne
      | x :: xs => rfl
    match cs, ih with
    | [], _ =>
      show parseColumns (joinComma [serializeColumn c]) = [c]
      rw [show joinComma [serializeColumn c] = serializeColumn c from rfl]
      rw [parseColumns, splitComma_no_comma _ hcomma]
      rw [List.map_cons, List.map_nil, htrim, List.filter_cons]
      simp only [hEmpty, Bool.not_false, if_true]
      rw [List.filter_nil, List.map_cons, List.map_nil, hparse]
    | d :: cs2, ih =>
      have htail := ih (fun x hx => h x (List.mem_cons_of_mem c hx))
      show parseColumns
        (joinComma (serializeColumn c :: (d :: cs2).map serializeColumn)) =
        c :: d :: cs2
      rw [show joinComma
            (serializeColumn c :: (d :: cs2).map serializeColumn) =
          serializeColumn c ++
            ',' :: ' ' :: joinComma ((d :: cs2).map serializeColumn) from by
        rw [List.map_cons]
        rfl]
      rw [parseColumns, splitComma_append_comma _ _ hcomma]
      rw [List.map_cons, htrim, mapTrim_splitComma_space]
      rw [List.filter_cons]
      simp only [hEmpty, Bool.not_false, if_true]
      rw [List.map_cons, hparse]
      show c :: parseColumns (onStartEditText (d :: cs2)) = c :: d :: cs2
      rw [htail]

/-- C6 witness: the round-trip at a concrete column list exercising
all three tags and an untagged column. -/
theorem onStartEdit_addTable_roundtrip_witness :
    (∀ c ∈ sampleColumns, GoodColumn c) ∧
    parseColumns (onStartEditText sampleColumns) = sampleColumns :=
  ⟨by decide, onStartEdit_addTable_roundtrip sampleColumns (by decide)⟩

end DataModel
